import Mathlib

/-!
Verification of the jaj conversational order-construction backend.

The definitions below are a shallow embedding of the Go source:

* `src/backend/internal/chat/handler.go` (second revision): `MakePromptHandler`,
  the per-turn chat orchestrator, together with its helper
  `calculateTransportFee`.
* `src/unnamed/part_010` (`package orders`): `handleCancelOrder`,
  `handleListOrders` and the identical `calculateTransportFee` copy.

SQL tables are embedded as lists of records inside `DB`; the external
collaborators (Gemini phase-1 extraction output and the MCP catalog service)
are inputs of the turn (`Env`).  Fire-and-forget notification e-mails are
recorded as values in the turn output instead of being sent.  Go `int` is
embedded as `Int`, timestamps as `Nat`.
-/

namespace Jaj

/-! ### Go string helpers (strings.TrimSpace / HasPrefix / SplitN / ToLower / Contains) -/

/-- Whitespace set of Go `unicode.IsSpace` restricted to ASCII, which is the
alphabet exercised by the handler. -/
def goIsSpace (c : Char) : Bool :=
  c = ' ' || c = '\t' || c = '\n' || c = '\r' || c = '\x0b' || c = '\x0c'

/-- Left part of `strings.TrimSpace`. -/
def trimLeft (l : List Char) : List Char := l.dropWhile goIsSpace

/-- Right part of `strings.TrimSpace`. -/
def trimRight (l : List Char) : List Char := (l.reverse.dropWhile goIsSpace).reverse

/-- `strings.TrimSpace` on a character list. -/
def goTrimSpace (l : List Char) : List Char := trimRight (trimLeft l)

/-- Split at the first newline, keeping the remainder intact. -/
def splitFirstNL : List Char → Option (List Char × List Char)
  | [] => none
  | c :: r =>
    if c = '\n' then some ([], r)
    else (splitFirstNL r).map (fun p => (c :: p.1, p.2))

/-- `strings.SplitN(s, "\n", 3)`: at most three parts, the last one keeping
any further newlines. -/
def splitN3 (l : List Char) : List (List Char) :=
  match splitFirstNL l with
  | none => [l]
  | some (a, r) =>
    match splitFirstNL r with
    | none => [a, r]
    | some (b, r2) => [a, b, r2]

/-- `strings.HasPrefix(s, "\x60\x60\x60")`, the markdown-fence test of the
handler. -/
def hasTickFence : List Char → Bool
  | '`' :: '`' :: '`' :: _ => true
  | _ => false

/-- Fence stripping of `MakePromptHandler` (handler.go lines 458-466): trim,
and when the text starts with a triple backtick and has at least three
newline-separated parts, keep only the second part, trimmed. -/
def stripFences (s : List Char) : List Char :=
  if hasTickFence (goTrimSpace s) then
    match splitN3 (goTrimSpace s) with
    | [_, b, _] => goTrimSpace b
    | _ => goTrimSpace s
  else goTrimSpace s

/-- `strings.ToLower` (ASCII payloads). -/
def strToLower (s : String) : String := String.mk (s.toList.map Char.toLower)

/-- `strings.TrimSpace` on `String`. -/
def goTrimSpaceStr (s : String) : String := String.mk (goTrimSpace s.toList)

/-- The handler lowercases the trimmed message before keyword matching
(handler.go lines 201-202). -/
def normalizeMsg (s : String) : String := strToLower (goTrimSpaceStr s)

/-- `strings.Contains`. -/
def strContainsSub (s pat : String) : Bool :=
  s.toList.tails.any (fun t => pat.toList.isPrefixOf t)

/-! ### JSON decoding of the phase-1 extraction output

`encoding/json.Unmarshal(data, &[]parsedProduct)` is Go standard library
code; it is embedded here as an executable recursive-descent parser for the
payload shape the handler requires: a JSON array of objects
`\x7b"name": <string>, "quantity": <integer>\x7d` (fields in that canonical
order, no escape sequences inside strings), with arbitrary interleaving
whitespace and nothing but whitespace after the closing bracket.  On any
other input it returns `none`, exactly as `json.Unmarshal` reports an error
there. -/

/-- One extracted line request (`parsedProduct` in handler.go). -/
structure parsedProduct where
  name : String
  quantity : Int
deriving DecidableEq, Repr

/-- Skip JSON interelement whitespace. -/
def skipWs : List Char → List Char
  | c :: r => if c = ' ' || c = '\n' || c = '\t' || c = '\r' then skipWs r else c :: r
  | [] => []

/-- Read the body of a JSON string up to the closing quote. -/
def takeStr : List Char → Option (List Char × List Char)
  | [] => none
  | c :: r =>
    if c = '"' then some ([], r)
    else (takeStr r).map (fun p => (c :: p.1, p.2))

/-- Read a nonempty digit run as a natural number. -/
def digitsVal (l : List Char) : Option Nat :=
  if l.isEmpty then none
  else if l.all Char.isDigit then
    some (l.foldl (fun a c => a * 10 + (c.toNat - 48)) 0)
  else none

/-- Read a JSON integer (optional minus sign). -/
def parseIntTok (l : List Char) : Option (Int × List Char) :=
  match l with
  | '-' :: r =>
    let ds := r.takeWhile Char.isDigit
    (digitsVal ds).map (fun n => (-(n : Int), r.dropWhile Char.isDigit))
  | _ =>
    let ds := l.takeWhile Char.isDigit
    (digitsVal ds).map (fun n => ((n : Int), l.dropWhile Char.isDigit))

/-- Read one `\x7b"name": …, "quantity": …\x7d` object. -/
def parseObj (l : List Char) : Option (parsedProduct × List Char) :=
  match skipWs l with
  | '\x7b' :: r =>
    match skipWs r with
    | '"' :: r1 =>
      match takeStr r1 with
      | some (key1, r2) =>
        if key1 = "name".toList then
          match skipWs r2 with
          | ':' :: r3 =>
            match skipWs r3 with
            | '"' :: r4 =>
              match takeStr r4 with
              | some (nm, r5) =>
                match skipWs r5 with
                | ',' :: r6 =>
                  match skipWs r6 with
                  | '"' :: r7 =>
                    match takeStr r7 with
                    | some (key2, r8) =>
                      if key2 = "quantity".toList then
                        match skipWs r8 with
                        | ':' :: r9 =>
                          match parseIntTok (skipWs r9) with
                          | some (q, r10) =>
                            match skipWs r10 with
                            | '\x7d' :: r11 => some (⟨String.mk nm, q⟩, r11)
                            | _ => none
                          | none => none
                        | _ => none
                      else none
                    | none => none
                  | _ => none
                | _ => none
              | none => none
            | _ => none
          | _ => none
        else none
      | none => none
    | _ => none
  | _ => none

/-- Read `(',' object)* ']'` with fuel bounded by the input length. -/
def parseMore (fuel : Nat) (acc : List parsedProduct) (l : List Char) :
    Option (List parsedProduct × List Char) :=
  match fuel with
  | 0 => none
  | fuel' + 1 =>
    match skipWs l with
    | ']' :: r => some (acc.reverse, r)
    | ',' :: r =>
      match parseObj r with
      | some (p, r2) => parseMore fuel' (p :: acc) r2
      | none => none
    | _ => none

/-- `json.Unmarshal` into `[]parsedProduct` (see the section comment for the
modelled payload subset). -/
def jsonParseProducts (l : List Char) : Option (List parsedProduct) :=
  match skipWs l with
  | '[' :: r =>
    match skipWs r with
    | ']' :: r2 => if (skipWs r2).isEmpty then some [] else none
    | _ =>
      match parseObj r with
      | some (p, r2) =>
        match parseMore (l.length + 1) [p] r2 with
        | some (ps, r3) => if (skipWs r3).isEmpty then some ps else none
        | none => none
      | none => none
  | _ => none

/-- Fence stripping followed by decoding, with decode failure degraded to the
empty list (handler.go lines 458-471). -/
def parsePipelineL (l : List Char) : List parsedProduct :=
  (jsonParseProducts (stripFences l)).getD []

/-- `parsePipelineL` on the raw phase-1 output string. -/
def parsePipeline (raw : String) : List parsedProduct := parsePipelineL raw.toList

/-- A canonical markdown code fence around a payload, as emitted by the
language model: three backticks and a language tag, a newline, the payload,
a newline and three closing backticks. -/
def fenceWrap (P : List Char) : List Char :=
  '`' :: '`' :: '`' :: 'j' :: 's' :: 'o' :: 'n' :: '\n' ::
    (P ++ '\n' :: '`' :: '`' :: '`' :: [])

/-! ### Data model: the `orders`, `order_items` and catalog rows -/

/-- The `status` column of `orders`: `'PENDING'`, `'CONFIRMED'`,
`'CANCELLED'`. -/
inductive Status
  | pending
  | confirmed
  | cancelled
deriving DecidableEq, Repr

/-- One row of the `orders` table. -/
structure Order where
  id : Nat
  userId : Nat
  status : Status
  transportFee : Int
  totalCost : Int
  createdAt : Nat
deriving DecidableEq, Repr

/-- One row of the `order_items` table. -/
structure OrderItem where
  orderId : Nat
  itemId : Nat
  quantity : Int
  unitPrice : Int
deriving DecidableEq, Repr

/-- One catalog record returned by the MCP `/query` endpoint
(fields `id`, `name`, `category`, `price_ugx`, `available`). -/
structure CatalogRow where
  id : Nat
  name : String
  category : String
  priceUgx : Int
  available : Bool
deriving DecidableEq, Repr

/-- The persistent store: both tables plus the id sequence backing
`INSERT … RETURNING id`. -/
structure DB where
  orders : List Order
  orderItems : List OrderItem
  nextOrderId : Nat
deriving DecidableEq, Repr

/-- A fire-and-forget e-mail recorded instead of being sent: the confirm
branch spawns `SendOrderConfirmationEmail` with the order id, the user id,
the recomputed transport fee and total; the cancel branch spawns
`SendOrderCancellationEmail`. -/
inductive Notification
  | orderConfirmed (orderId userId : Nat) (fee total : Int)
  | orderCancelled (orderId userId : Nat)
deriving DecidableEq, Repr

/-- The observable outcome of one chat turn: the JSON reply plus the durable
store and the spawned notifications. -/
structure TurnOut where
  reply : String
  notifs : List Notification
  db : DB
deriving DecidableEq, Repr

/-- External inputs of one turn: the raw phase-1 Gemini output for this
message, the MCP catalog lookup (`maxResults = 1`, so the handler uses the
head of the returned array), `time.Now().Truncate(24*time.Hour)` and the
`NOW()` used for `created_at` of a freshly inserted order. -/
structure Env where
  phase1Raw : String
  catalog : String → List CatalogRow
  today : Nat
  nowTs : Nat

/-! ### Store operations used by the handler -/

/-- Row predicate of `SELECT … WHERE user_id = $1 AND status = 'PENDING'`. -/
def pendingPred (uid : Nat) (o : Order) : Bool :=
  o.userId == uid && o.status == Status.pending

/-- All pending orders of a user. -/
def pendingOrdersOf (db : DB) (uid : Nat) : List Order :=
  db.orders.filter (pendingPred uid)

/-- Number of pending orders of a user. -/
def pendingCount (db : DB) (uid : Nat) : Nat := (pendingOrdersOf db uid).length

/-- Pick the order with the latest `created_at` (`ORDER BY created_at DESC
LIMIT 1`). -/
def newerOf (a b : Order) : Order := if a.createdAt < b.createdAt then b else a

/-- Latest-created element of a list of orders. -/
def pickLatest : List Order → Option Order
  | [] => none
  | o :: rest => some (rest.foldl newerOf o)

/-- The pending-order lookup of STEP A (handler.go lines 204-220). -/
def findPendingOrder (db : DB) (uid : Nat) : Option Order :=
  pickLatest (pendingOrdersOf db uid)

/-- `UPDATE orders SET status = $s WHERE id = $oid` on one row. -/
def statusUpd (oid : Nat) (s : Status) (o : Order) : Order :=
  if o.id == oid then { o with status := s } else o

/-- `UPDATE orders SET status = $s WHERE id = $oid`. -/
def setOrderStatus (db : DB) (oid : Nat) (s : Status) : DB :=
  { db with orders := db.orders.map (statusUpd oid s) }

/-- `UPDATE orders SET transport_fee = $1, total_cost = $2 WHERE id = $3` on
one row. -/
def feeUpd (oid : Nat) (fee total : Int) (o : Order) : Order :=
  if o.id == oid then { o with transportFee := fee, totalCost := total } else o

/-- `UPDATE orders SET transport_fee = $1, total_cost = $2 WHERE id = $3`. -/
def setOrderFeeTotal (db : DB) (oid : Nat) (fee total : Int) : DB :=
  { db with orders := db.orders.map (feeUpd oid fee total) }

/-- `SELECT quantity, unit_price FROM order_items WHERE order_id = $1`
summed as `quantity * unit_price`. -/
def itemsSubtotal (db : DB) (oid : Nat) : Int :=
  (db.orderItems.filter (fun it => it.orderId == oid)).foldl
    (fun acc it => acc + it.quantity * it.unitPrice) 0

/-- `SELECT COUNT(*) FROM orders WHERE user_id = $1 AND status = 'CONFIRMED'
AND created_at >= $2`. -/
def countConfirmedSince (db : DB) (uid : Nat) (since : Nat) : Nat :=
  (db.orders.filter (fun o =>
    o.userId == uid && o.status == Status.confirmed && decide (since ≤ o.createdAt))).length

/-- First order row with the given id (`SELECT … FROM orders WHERE id=$1`). -/
def findOrderById (db : DB) (oid : Nat) : Option Order :=
  db.orders.find? (fun o => o.id == oid)

/-! ### The transport-fee tiers -/

/-- `calculateTransportFee` (handler.go lines 611-620 and part_010 lines
245-254). -/
def calculateTransportFee (orderCountToday : Int) : Int :=
  if orderCountToday ≤ 3 then 1000
  else if orderCountToday ≤ 6 then 2000
  else 3000

/-! ### The conversation orchestrator (`MakePromptHandler`, second revision) -/

/-- One validated line kept for the summary reply (`confirmedItem`). -/
structure confirmedItem where
  name : String
  quantity : Int
  unitPrice : Int
deriving DecidableEq, Repr

/-- Fixed replies of the handler. -/
def confirmReply : String :=
  "Your order has been confirmed! We\x27ll see you at 18:00 at F2 17."

/-- Reply of the cancel branch. -/
def cancelReply : String :=
  "Your order has been cancelled. If you need anything else, just let me know."

/-- Reply of the off-topic short-circuit. -/
def offTopicReply : String :=
  "Sorry, we cannot help you with that, our goal is to take orders and deliveries."

/-- Reply when a product is missing or unavailable. -/
def notAvailableReply (name : String) : String :=
  "That product \"" ++ name ++ "\" is not available at the moment."

/-- One summary line (`- %s × %d @ %d UGX = %d UGX`). -/
def lineText (ci : confirmedItem) : String :=
  "- " ++ ci.name ++ " × " ++ toString ci.quantity ++ " @ " ++
    toString ci.unitPrice ++ " UGX = " ++ toString (ci.quantity * ci.unitPrice) ++ " UGX"

/-- The PHASE-2 summary reply (handler.go lines 590-603). -/
def summaryReply (cis : List confirmedItem) (totalSubtotal : Int) : String :=
  "Okay, here’s a summary of your order:\n\n" ++
  "Items:\n" ++ String.intercalate "\n" (cis.map lineText) ++ "\n\n" ++
  "Subtotal: " ++ toString totalSubtotal ++ " UGX\n\n" ++
  "Once you confirm, we’ll add a transport fee and give you the grand total.\n\n" ++
  "Do you confirm the contents of this order?"

/-- The PHASE-2 per-line loop (handler.go lines 509-582): query the catalog
for each extracted line; an empty hit list or an unavailable top hit aborts
with that product name (the Go code rolls back the transaction), otherwise
an `order_items` row is accumulated together with the summary data and the
running subtotal. -/
def processItems (env : Env) (orderId : Nat) :
    List parsedProduct → List OrderItem → List confirmedItem → Int →
    Except String (List OrderItem × List confirmedItem × Int)
  | [], acc, cis, st => Except.ok (acc, cis, st)
  | p :: rest, acc, cis, st =>
    match env.catalog p.name with
    | [] => Except.error p.name
    | row :: _ =>
      if row.available then
        processItems env orderId rest
          (acc ++ [⟨orderId, row.id, p.quantity, row.priceUgx⟩])
          (cis ++ [⟨p.name, p.quantity, row.priceUgx⟩])
          (st + row.priceUgx * p.quantity)
      else Except.error p.name

/-- PHASE 1 + PHASE 2 of a turn with no (remaining) pending order
(handler.go lines 397-607): decode the extraction output, short-circuit on
an empty list, otherwise insert a `'PENDING'` order with zero fee and total
and run the per-line loop inside one transaction; on abort the store is
unchanged. -/
def freshFlow (env : Env) (uid : Nat) (db : DB) : TurnOut :=
  if (parsePipeline env.phase1Raw).isEmpty then
    ⟨offTopicReply, [], db⟩
  else
    match processItems env db.nextOrderId (parsePipeline env.phase1Raw) [] [] 0 with
    | Except.error nm => ⟨notAvailableReply nm, [], db⟩
    | Except.ok (items, cis, totalSubtotal) =>
      ⟨summaryReply cis totalSubtotal, [],
        ⟨db.orders ++ [⟨db.nextOrderId, uid, Status.pending, 0, 0, env.nowTs⟩],
         db.orderItems ++ items, db.nextOrderId + 1⟩⟩

/-- The confirm branch (handler.go lines 226-347): flip the pending order to
`'CONFIRMED'`, sum its line subtotals, count the user's `'CONFIRMED'` orders
created since `today` in the post-update store and add one, derive the fee
and total, persist them and spawn the confirmation e-mail. -/
def confirmBranch (env : Env) (uid : Nat) (db : DB) (d : Order) : TurnOut :=
  let db1 := setOrderStatus db d.id Status.confirmed
  let subtotal := itemsSubtotal db1 d.id
  let cnt := countConfirmedSince db1 uid env.today + 1
  let fee := calculateTransportFee (cnt : Int)
  let total := subtotal + fee
  ⟨confirmReply, [Notification.orderConfirmed d.id uid fee total],
    setOrderFeeTotal db1 d.id fee total⟩

/-- The cancel branch (handler.go lines 349-385): flip the pending order to
`'CANCELLED'` and spawn the cancellation e-mail. -/
def cancelBranch (uid : Nat) (db : DB) (d : Order) : TurnOut :=
  ⟨cancelReply, [Notification.orderCancelled d.id uid],
    setOrderStatus db d.id Status.cancelled⟩

/-- One chat turn of `MakePromptHandler` (second revision): look up the
latest pending order of the user; with one present, a message containing
"confirm" confirms it, a message containing "cancel"/"cancelled" cancels it
with a notification, and any other message silently cancels it and falls
through to the fresh flow; with none present the fresh flow runs
directly. -/
def handleTurn (env : Env) (uid : Nat) (msg : String) (db : DB) : TurnOut :=
  match findPendingOrder db uid with
  | some d =>
    if strContainsSub (normalizeMsg msg) "confirm" then
      confirmBranch env uid db d
    else if strContainsSub (normalizeMsg msg) "cancel"
        || strContainsSub (normalizeMsg msg) "cancelled" then
      cancelBranch uid db d
    else
      freshFlow env uid (setOrderStatus db d.id Status.cancelled)
  | none => freshFlow env uid db

/-- A line fails PHASE-2 validation when its catalog lookup returns no hit
or a top hit with `available = false`. -/
def lineFails (env : Env) (p : parsedProduct) : Bool :=
  match env.catalog p.name with
  | [] => true
  | row :: _ => !row.available

/-- A finite conversation: fold `handleTurn` over a list of
(environment, user, message) turns. -/
def runTurns : List (Env × Nat × String) → DB → DB
  | [], db => db
  | (e, u, m) :: rest, db => runTurns rest (handleTurn e u m db).db

/-! ### `handleCancelOrder` (part_010 lines 369-449) -/

/-- HTTP outcome of the cancel endpoint. -/
inductive CancelResult
  | noContent
  | errNotFound
  | errNotAuthorized
  | errNotCancellable
  | errWindowClosed
deriving DecidableEq, Repr

/-- Observable outcome of a cancel request. -/
structure CancelOut where
  result : CancelResult
  db : DB
  notifs : List Notification
deriving DecidableEq, Repr

/-- The 17:00 cancellation cutoff, as seconds of the local day;
`now.After(cutoff)` is `cancelCutoffSecs < nowSecs`. -/
def cancelCutoffSecs : Nat := 17 * 3600

/-- `handleCancelOrder`: load the order, check ownership, check that the
status is `'PENDING'` or `'CONFIRMED'`, check the 17:00 window, then set the
status to `'CANCELLED'` and spawn the cancellation e-mail.  Every failing
check returns an HTTP error with the store untouched. -/
def handleCancelOrder (db : DB) (uid oid : Nat) (nowSecs : Nat) : CancelOut :=
  match findOrderById db oid with
  | none => ⟨CancelResult.errNotFound, db, []⟩
  | some o =>
    if o.userId ≠ uid then ⟨CancelResult.errNotAuthorized, db, []⟩
    else if o.status ≠ Status.pending ∧ o.status ≠ Status.confirmed then
      ⟨CancelResult.errNotCancellable, db, []⟩
    else if cancelCutoffSecs < nowSecs then ⟨CancelResult.errWindowClosed, db, []⟩
    else ⟨CancelResult.noContent, setOrderStatus db oid Status.cancelled,
          [Notification.orderCancelled oid uid]⟩

/-! ### `handleListOrders` (part_010 lines 257-366) -/

/-- `strconv.Atoi`: an optional sign followed by a nonempty digit run and
nothing else. -/
def goAtoi (s : String) : Option Int :=
  match s.toList with
  | '+' :: rest => (digitsVal rest).map (fun n => (n : Int))
  | '-' :: rest => (digitsVal rest).map (fun n => -(n : Int))
  | l => (digitsVal l).map (fun n => (n : Int))

/-- Raw query parameters of the listing endpoint.  `status`, `page` and
`limit` are the raw strings (`""` when absent).  The `date` parameter is
carried as the already-parsed day start (`none` when absent or when
`time.Parse` failed, in which case the Go code skips the filter); the date
arithmetic `date.Add(24*time.Hour)` is `dateFrom + daySecs`. -/
structure ListQuery where
  status : String
  dateFrom : Option Nat
  page : String
  limit : String
deriving DecidableEq, Repr

/-- 24 hours, in the seconds-based timestamp scale of `Order.createdAt`. -/
def daySecs : Nat := 86400

/-- The status text stored in the `status` column. -/
def statusText : Status → String
  | Status.pending => "PENDING"
  | Status.confirmed => "CONFIRMED"
  | Status.cancelled => "CANCELLED"

/-- Optional `status = $q` filter. -/
def statusFilterOk (q : String) (o : Order) : Bool :=
  if q = "" then true else statusText o.status == q

/-- Optional `created_at >= $d AND created_at < $d+24h` filter. -/
def dateFilterOk (d : Option Nat) (o : Order) : Bool :=
  match d with
  | none => true
  | some t => decide (t ≤ o.createdAt) && decide (o.createdAt < t + daySecs)

/-- Effective `page` value: `strconv.Atoi` failure or a value below 1 falls
back to 1. -/
def effPage (s : String) : Int :=
  match goAtoi s with
  | none => 1
  | some n => if n < 1 then 1 else n

/-- Effective `limit` value: `strconv.Atoi` failure, a value below 1 or a
value above 100 falls back to 20. -/
def effLimit (s : String) : Int :=
  match goAtoi s with
  | none => 20
  | some n => if n < 1 ∨ n > 100 then 20 else n

/-- Insert an order into a list kept sorted by `created_at` descending. -/
def insertByCreated (o : Order) : List Order → List Order
  | [] => [o]
  | x :: xs =>
    if o.createdAt ≤ x.createdAt then x :: insertByCreated o xs
    else o :: x :: xs

/-- `ORDER BY created_at DESC` on the filtered rows. -/
def sortByCreatedDesc (l : List Order) : List Order := l.foldr insertByCreated []

/-- The order rows selected by `handleListOrders`: `WHERE` filters, sort,
`OFFSET (page-1)*limit`, `LIMIT limit`. -/
def listOrdersRows (db : DB) (uid : Nat) (q : ListQuery) : List Order :=
  ((sortByCreatedDesc (db.orders.filter (fun o =>
      o.userId == uid && statusFilterOk q.status o && dateFilterOk q.dateFrom o))).drop
    (((effPage q.page - 1) * effLimit q.limit).toNat)).take (effLimit q.limit).toNat

/-- `handleListOrders`: every selected order row together with its
`order_items` rows (the per-order item join). -/
def handleListOrders (db : DB) (uid : Nat) (q : ListQuery) :
    List (Order × List OrderItem) :=
  (listOrdersRows db uid q).map
    (fun o => (o, db.orderItems.filter (fun it => it.orderId == o.id)))

/-! ### Concrete fixtures used in the closed theorems below -/

/-- A store where user 1 already has two orders confirmed today
(`createdAt = 100 = today`) and a pending draft (order 3, created today)
holding one line of quantity 2 at unit price 5000. -/
def dbFee : DB :=
  ⟨[⟨1, 1, Status.confirmed, 1000, 6000, 100⟩,
    ⟨2, 1, Status.confirmed, 1000, 7000, 100⟩,
    ⟨3, 1, Status.pending, 0, 0, 100⟩],
   [⟨3, 7, 2, 5000⟩], 4⟩

/-- Turn environment for the fee scenario: day start 100, catalog never
consulted on a confirm turn. -/
def envFee : Env := ⟨"", fun _ => [], 100, 100⟩

/-- A multi-line extraction payload: a JSON array holding one product,
spread over two lines. -/
def cexPayload : List Char :=
  ("[\n\x7b\"name\":\"milk\",\"quantity\":2\x7d]").toList

/-- An empty store. -/
def dbEmpty : DB := ⟨[], [], 0⟩

/-- A store where user 1 has exactly one pending draft (order 1). -/
def dbOnePending : DB := ⟨[⟨1, 1, Status.pending, 0, 0, 50⟩], [⟨1, 9, 1, 700⟩], 2⟩

/-- Environment whose extraction output is off-topic (empty array) and whose
catalog is empty. -/
def envOffTopic : Env := ⟨"[]", fun _ => [], 100, 100⟩

/-- Environment whose extraction output is gibberish (decode failure). -/
def envGibberish : Env := ⟨"I cannot parse this", fun _ => [], 100, 100⟩

/-- Environment extracting milk then soap, where the catalog has milk
available but returns no hit for soap. -/
def envSoapMissing : Env :=
  ⟨"[\x7b\"name\":\"milk\",\"quantity\":1\x7d,\x7b\"name\":\"soap\",\"quantity\":2\x7d]",
   fun n => if n == "milk" then [⟨11, "milk", "dairy", 5000, true⟩] else [],
   100, 100⟩

/-- Listing query asking for an out-of-range limit of 200. -/
def qBigLimit : ListQuery := ⟨"", none, "", "200"⟩

/-! ## C3: the transport-fee tiers -/

/-- C3: for every integer `n`, `calculateTransportFee` returns 1000 when
`n ≤ 3`, 2000 when `4 ≤ n ≤ 6` and 3000 when `n > 6`; it is monotonically
non-decreasing, and at the boundaries 3, 4, 6, 7 it takes the values 1000,
2000, 2000, 3000. -/
theorem c3_transport_fee_tiers (n m : Int) :
    (n ≤ 3 → calculateTransportFee n = 1000)
    ∧ (4 ≤ n → n ≤ 6 → calculateTransportFee n = 2000)
    ∧ (6 < n → calculateTransportFee n = 3000)
    ∧ (n ≤ m → calculateTransportFee n ≤ calculateTransportFee m)
    ∧ calculateTransportFee 3 = 1000 ∧ calculateTransportFee 4 = 2000
    ∧ calculateTransportFee 6 = 2000 ∧ calculateTransportFee 7 = 3000 := by
  unfold calculateTransportFee
  refine ⟨?_, ?_, ?_, ?_, by norm_num, by norm_num, by norm_num, by norm_num⟩ <;>
    intros <;> split_ifs <;> omega

/-- Witness for C3 at concrete inputs. -/
theorem c3_transport_fee_tiers_witness :
    calculateTransportFee 2 = 1000 ∧ calculateTransportFee 5 ≤ calculateTransportFee 9 :=
  ⟨(c3_transport_fee_tiers 2 0).1 (by norm_num),
   (c3_transport_fee_tiers 5 9).2.2.2.1 (by norm_num)⟩

/-! ## C9: guarded cancel-by-id -/

/-- `statusUpd` never changes the id column. -/
theorem statusUpd_id (oid : Nat) (s : Status) (o : Order) :
    (statusUpd oid s o).id = o.id := by
  unfold statusUpd; split <;> rfl

/-- `feeUpd` never changes the id column. -/
theorem feeUpd_id (oid : Nat) (fee total : Int) (o : Order) :
    (feeUpd oid fee total o).id = o.id := by
  unfold feeUpd; split <;> rfl

/-- Searching by id commutes with an id-preserving row update. -/
theorem find?_map_id_keep (f : Order → Order) (hid : ∀ o, (f o).id = o.id) (oid : Nat) :
    ∀ l : List Order, (l.map f).find? (fun o => o.id == oid)
      = (l.find? (fun o => o.id == oid)).map f
  | [] => rfl
  | a :: l => by
    by_cases ha : a.id = oid
    · have hb : (a.id == oid) = true := by simp [ha]
      simp [List.find?, hid, hb]
    · have hb : (a.id == oid) = false := by simp [ha]
      simp [List.find?, hid, hb, find?_map_id_keep f hid oid l]

/-- `findOrderById` after a status update finds the updated row. -/
theorem findOrderById_setStatus (db : DB) (oid : Nat) (s : Status) :
    findOrderById (setOrderStatus db oid s) oid
      = (findOrderById db oid).map (statusUpd oid s) :=
  find?_map_id_keep (statusUpd oid s) (statusUpd_id oid s) oid db.orders

/-- C9: `handleCancelOrder` answers `204 No Content` exactly when the order
exists, is owned by the requester, is in a cancellable status and the
request arrives no later than the 17:00 cutoff; in that case the order's
status becomes `'CANCELLED'`, and in every other case an error is returned
and the store is unchanged. -/
theorem c9_cancel_guarded (db : DB) (uid oid nowSecs : Nat) :
    ((handleCancelOrder db uid oid nowSecs).result = CancelResult.noContent ↔
      (∃ o, findOrderById db oid = some o ∧ o.userId = uid
        ∧ (o.status = Status.pending ∨ o.status = Status.confirmed)
        ∧ nowSecs ≤ cancelCutoffSecs))
    ∧ ((handleCancelOrder db uid oid nowSecs).result ≠ CancelResult.noContent →
        (handleCancelOrder db uid oid nowSecs).db = db)
    ∧ ((handleCancelOrder db uid oid nowSecs).result = CancelResult.noContent →
        (findOrderById (handleCancelOrder db uid oid nowSecs).db oid).map Order.status
          = some Status.cancelled) := by
  cases hf : findOrderById db oid with
  | none =>
    have hred : handleCancelOrder db uid oid nowSecs = ⟨CancelResult.errNotFound, db, []⟩ := by
      unfold handleCancelOrder; rw [hf]
    rw [hred]
    refine ⟨⟨fun h => absurd h (by simp), ?_⟩, fun _ => rfl, fun h => absurd h (by simp)⟩
    rintro ⟨o', ho', -, -, -⟩
    exact Option.noConfusion ho'
  | some o =>
    have hred : handleCancelOrder db uid oid nowSecs =
        (if o.userId ≠ uid then ⟨CancelResult.errNotAuthorized, db, []⟩
         else if o.status ≠ Status.pending ∧ o.status ≠ Status.confirmed then
           ⟨CancelResult.errNotCancellable, db, []⟩
         else if cancelCutoffSecs < nowSecs then ⟨CancelResult.errWindowClosed, db, []⟩
         else ⟨CancelResult.noContent, setOrderStatus db oid Status.cancelled,
               [Notification.orderCancelled oid uid]⟩) := by
      unfold handleCancelOrder; rw [hf]
    rw [hred]
    split_ifs with h1 h2 h3
    · refine ⟨⟨fun h => absurd h (by simp), ?_⟩, fun _ => rfl, fun h => absurd h (by simp)⟩
      rintro ⟨o', ho', hu, -, -⟩
      injection ho' with ho'
      exact h1 (ho' ▸ hu)
    · refine ⟨⟨fun h => absurd h (by simp), ?_⟩, fun _ => rfl, fun h => absurd h (by simp)⟩
      rintro ⟨o', ho', -, hs, -⟩
      injection ho' with ho'
      subst ho'
      rcases hs with hs | hs
      · exact h2.1 hs
      · exact h2.2 hs
    · refine ⟨⟨fun h => absurd h (by simp), ?_⟩, fun _ => rfl, fun h => absurd h (by simp)⟩
      rintro ⟨o', ho', -, -, ht⟩
      omega
    · refine ⟨⟨fun _ => ⟨o, rfl, not_not.mp h1, by tauto, by omega⟩, fun _ => rfl⟩,
        fun h => absurd rfl h, fun _ => ?_⟩
      show (findOrderById (setOrderStatus db oid Status.cancelled) oid).map Order.status
        = some Status.cancelled
      rw [findOrderById_setStatus, hf]
      have hfo : db.orders.find? (fun o => o.id == oid) = some o := hf
      have ho' := List.find?_some hfo
      have ho : (o.id == oid) = true := by simpa using ho'
      have hstat : (statusUpd oid Status.cancelled o).status = Status.cancelled := by
        unfold statusUpd; simp [ho]
      simp [hstat]

/-- Witness for C9: cancelling an owned pending order before the cutoff
marks it cancelled. -/
theorem c9_cancel_guarded_witness :
    (findOrderById (handleCancelOrder dbOnePending 1 1 100).db 1).map Order.status
      = some Status.cancelled :=
  (c9_cancel_guarded dbOnePending 1 1 100).2.2 (by decide)

/-! ## C10: listing with clamped pagination, newest first -/

/-- Membership in an insertion-sorted list. -/
theorem mem_insertByCreated (o a : Order) :
    ∀ l, a ∈ insertByCreated o l ↔ a = o ∨ a ∈ l
  | [] => by simp [insertByCreated]
  | x :: xs => by
    unfold insertByCreated
    split_ifs with hcmp
    · rw [List.mem_cons, mem_insertByCreated o a xs, List.mem_cons]
      tauto
    · rw [List.mem_cons]

/-- Inserting into a descending-sorted list keeps it sorted. -/
theorem pairwise_insertByCreated (o : Order) :
    ∀ l, List.Pairwise (fun a b => b.createdAt ≤ a.createdAt) l →
      List.Pairwise (fun a b => b.createdAt ≤ a.createdAt) (insertByCreated o l)
  | [], _ => by simp [insertByCreated]
  | x :: xs, h => by
    rw [List.pairwise_cons] at h
    obtain ⟨hx, hxs⟩ := h
    unfold insertByCreated
    split_ifs with hcmp
    · rw [List.pairwise_cons]
      refine ⟨?_, pairwise_insertByCreated o xs hxs⟩
      intro b hb
      rcases (mem_insertByCreated o b xs).mp hb with hb | hb
      · subst hb; exact hcmp
      · exact hx b hb
    · rw [List.pairwise_cons]
      refine ⟨?_, List.pairwise_cons.mpr ⟨hx, hxs⟩⟩
      intro b hb
      rcases List.mem_cons.mp hb with hb | hb
      · subst hb; omega
      · have := hx b hb; omega

/-- `sortByCreatedDesc` sorts by creation time, newest first. -/
theorem pairwise_sortByCreatedDesc (l : List Order) :
    List.Pairwise (fun a b => b.createdAt ≤ a.createdAt) (sortByCreatedDesc l) := by
  unfold sortByCreatedDesc
  induction l with
  | nil => simp
  | cons a l ih =>
    rw [List.foldr_cons]
    exact pairwise_insertByCreated a _ ih

/-- C10: the effective page size always lies in 1..100; a missing,
non-numeric, non-positive or over-100 `limit` falls back to 20 and a
missing or below-1 `page` falls back to 1; at most the effective limit of
orders is returned, sorted by creation time descending. -/
theorem c10_listing_clamped (db : DB) (uid : Nat) (q : ListQuery) :
    (1 ≤ effLimit q.limit ∧ effLimit q.limit ≤ 100)
    ∧ (goAtoi q.limit = none → effLimit q.limit = 20)
    ∧ (∀ n, goAtoi q.limit = some n → (n < 1 ∨ 100 < n) → effLimit q.limit = 20)
    ∧ (goAtoi q.page = none → effPage q.page = 1)
    ∧ (∀ n, goAtoi q.page = some n → n < 1 → effPage q.page = 1)
    ∧ (handleListOrders db uid q).length ≤ (effLimit q.limit).toNat
    ∧ List.Pairwise (fun a b => b.1.createdAt ≤ a.1.createdAt)
        (handleListOrders db uid q) := by
  refine ⟨?_, ?_, ?_, ?_, ?_, ?_, ?_⟩
  · cases hq : goAtoi q.limit with
    | none =>
      have he : effLimit q.limit = 20 := by unfold effLimit; rw [hq]
      rw [he]; norm_num
    | some n =>
      have he : effLimit q.limit = if n < 1 ∨ n > 100 then 20 else n := by
        unfold effLimit; rw [hq]
      rw [he]
      split_ifs with h
      · norm_num
      · push_neg at h
        exact ⟨h.1, h.2⟩
  · intro h
    unfold effLimit
    rw [h]
  · intro n h hout
    have he : effLimit q.limit = if n < 1 ∨ n > 100 then 20 else n := by
      unfold effLimit; rw [h]
    rw [he, if_pos hout]
  · intro h
    unfold effPage
    rw [h]
  · intro n h hlt
    have he : effPage q.page = if n < 1 then 1 else n := by
      unfold effPage; rw [h]
    rw [he, if_pos hlt]
  · unfold handleListOrders listOrdersRows
    rw [List.length_map]
    exact List.length_take_le _ _
  · unfold handleListOrders
    rw [List.pairwise_map]
    unfold listOrdersRows
    exact List.Pairwise.sublist
      ((List.take_sublist _ _).trans (List.drop_sublist _ _))
      (pairwise_sortByCreatedDesc _)

/-- Witness for C10: a limit of 200 falls back to 20 and bounds the result
size. -/
theorem c10_listing_clamped_witness :
    effLimit "200" = 20
      ∧ (handleListOrders dbFee 1 qBigLimit).length ≤ (effLimit qBigLimit.limit).toNat :=
  ⟨(c10_listing_clamped dbFee 1 qBigLimit).2.2.1 200 (by decide) (Or.inr (by norm_num)),
   (c10_listing_clamped dbFee 1 qBigLimit).2.2.2.2.2.1⟩

/-! ## C6: fence stripping before JSON decoding -/

/-- Splitting at the first newline of `P ++ '\n' :: t` when `P` is
newline-free. -/
theorem splitFirstNL_not_nl (t : List Char) :
    ∀ P : List Char, '\n' ∉ P → splitFirstNL (P ++ '\n' :: t) = some (P, t)
  | [], _ => by simp [splitFirstNL]
  | c :: P, h => by
    have hc : ¬c = '\n' := fun hc => h (hc ▸ List.mem_cons_self c P)
    have hP : '\n' ∉ P := fun hP => h (List.mem_cons_of_mem c hP)
    simp [splitFirstNL, hc, splitFirstNL_not_nl t P hP]

/-- `trimLeft` keeps a list starting with a non-space character. -/
theorem trimLeft_cons_nonspace (c : Char) (l : List Char) (hc : goIsSpace c = false) :
    trimLeft (c :: l) = c :: l := by
  unfold trimLeft
  rw [List.dropWhile_cons, hc]
  simp

/-- `trimRight` keeps a list ending with a non-space character. -/
theorem trimRight_append_nonspace (l : List Char) (c : Char) (hc : goIsSpace c = false) :
    trimRight (l ++ [c]) = l ++ [c] := by
  unfold trimRight
  rw [List.reverse_append]
  simp only [List.reverse_cons, List.reverse_nil, List.nil_append, List.singleton_append]
  rw [List.dropWhile_cons, hc]
  simp

/-- Trimming a fence-wrapped payload changes nothing: it starts and ends
with a backtick. -/
theorem goTrimSpace_fenceWrap (P : List Char) :
    goTrimSpace (fenceWrap P) = fenceWrap P := by
  have hsplit : fenceWrap P =
      ('`' :: '`' :: '`' :: 'j' :: 's' :: 'o' :: 'n' :: '\n' ::
        (P ++ ['\n', '`', '`'])) ++ ['`'] := by
    simp [fenceWrap]
  unfold goTrimSpace
  rw [show trimLeft (fenceWrap P) = fenceWrap P from
    trimLeft_cons_nonspace '`' _ (by decide)]
  rw [hsplit]
  exact trimRight_append_nonspace _ '`' (by decide)

/-- `splitN3` on a fence-wrapped newline-free payload: opening fence,
payload, closing fence. -/
theorem splitN3_fenceWrap (P : List Char) (h : '\n' ∉ P) :
    splitN3 (fenceWrap P)
      = [['`', '`', '`', 'j', 's', 'o', 'n'], P, ['`', '`', '`']] := by
  have h1 : splitFirstNL (fenceWrap P) =
      some (['`', '`', '`', 'j', 's', 'o', 'n'], P ++ '\n' :: '`' :: '`' :: '`' :: []) := by
    simp [fenceWrap, splitFirstNL]
  have h2 : splitFirstNL (P ++ '\n' :: '`' :: '`' :: '`' :: []) =
      some (P, ['`', '`', '`']) := splitFirstNL_not_nl _ P h
  unfold splitN3
  rw [h1]
  simp [h2]

/-- Stripping a fence-wrapped newline-free payload yields the trimmed
payload. -/
theorem stripFences_fenceWrap (P : List Char) (h : '\n' ∉ P) :
    stripFences (fenceWrap P) = goTrimSpace P := by
  unfold stripFences
  rw [goTrimSpace_fenceWrap, splitN3_fenceWrap P h,
    show hasTickFence (fenceWrap P) = true from rfl]
  simp

/-- When the trimmed text does not start with a fence, stripping is just
trimming. -/
theorem stripFences_no_fence (P : List Char) (h : hasTickFence (goTrimSpace P) = false) :
    stripFences P = goTrimSpace P := by
  unfold stripFences
  rw [h]
  simp

/-- A newline-free list has no first newline. -/
theorem splitFirstNL_eq_none {l : List Char} (h : '\n' ∉ l) : splitFirstNL l = none := by
  induction l with
  | nil => rfl
  | cons c t ih =>
    have hc : ¬c = '\n' := fun hc => h (hc ▸ List.mem_cons_self c t)
    have ht : '\n' ∉ t := fun ht => h (List.mem_cons_of_mem c ht)
    simp [splitFirstNL, hc, ih ht]

/-- `dropWhile` never adds characters. -/
theorem mem_of_mem_dropWhile {α : Type} {p : α → Bool} {c : α} :
    ∀ {l : List α}, c ∈ l.dropWhile p → c ∈ l := by
  intro l h
  induction l with
  | nil => simp [List.dropWhile] at h
  | cons a t ih =>
    cases ha : p a with
    | true =>
      rw [List.dropWhile_cons, ha] at h
      simp only [if_true] at h
      exact List.mem_cons_of_mem a (ih h)
    | false =>
      rw [List.dropWhile_cons, ha] at h
      simp only [Bool.false_eq_true, if_false] at h
      exact h

/-- Trimming never adds characters. -/
theorem mem_goTrimSpace {c : Char} {l : List Char} (h : c ∈ goTrimSpace l) : c ∈ l := by
  unfold goTrimSpace trimRight trimLeft at h
  rw [List.mem_reverse] at h
  have h2 := mem_of_mem_dropWhile h
  rw [List.mem_reverse] at h2
  exact mem_of_mem_dropWhile h2

/-- For a newline-free text, stripping is just trimming: `SplitN` yields a
single part, so the three-part branch is never taken — whether or not the
text starts with a triple backtick. -/
theorem stripFences_no_newline (P : List Char) (h : '\n' ∉ P) :
    stripFences P = goTrimSpace P := by
  have ht : '\n' ∉ goTrimSpace P := fun hx => h (mem_goTrimSpace hx)
  have hs : splitN3 (goTrimSpace P) = [goTrimSpace P] := by
    unfold splitN3
    rw [splitFirstNL_eq_none ht]
  unfold stripFences
  rw [hs]
  split <;> rfl

/-- C6 (amended): for every payload `P` that contains no newline, decoding
the extraction output `P` wrapped in a markdown code fence yields the same
list of product lines as decoding `P` directly — both sides decode the
trimmed payload.  (For multi-line payloads the claim fails, see the
counterexample.) -/
theorem c6_fence_strip_single_line (P : List Char) (h1 : '\n' ∉ P) :
    parsePipelineL (fenceWrap P) = parsePipelineL P := by
  unfold parsePipelineL
  rw [stripFences_fenceWrap P h1, stripFences_no_newline P h1]

/-- Witness for the amended C6 at a concrete single-line payload. -/
theorem c6_fence_strip_single_line_witness :
    parsePipelineL (fenceWrap ("[]".toList)) = parsePipelineL ("[]".toList) :=
  c6_fence_strip_single_line ("[]".toList) (by decide)

/-- Counterexample to C6 as stated: for the two-line payload `cexPayload`
the fenced form decodes to no products (the fence stripper keeps only the
first payload line, and the decode failure degrades to the empty list)
while the bare payload decodes to one product. -/
theorem c6_fence_strip_counterexample :
    parsePipelineL (fenceWrap cexPayload) ≠ parsePipelineL cexPayload
      ∧ parsePipelineL cexPayload = [⟨"milk", 2⟩]
      ∧ parsePipelineL (fenceWrap cexPayload) = [] := by decide

/-! ## Infrastructure for the chat-turn theorems -/

/-- A filtered map is no longer than the filtered original when the map can
only turn matches into matches. -/
theorem length_filter_map_le {α : Type} (p : α → Bool) (f : α → α)
    (h : ∀ a, p (f a) = true → p a = true) :
    ∀ l : List α, ((l.map f).filter p).length ≤ (l.filter p).length
  | [] => Nat.le_refl 0
  | a :: l => by
    cases hfa : p (f a) with
    | true =>
      have hpa : p a = true := h a hfa
      simp only [List.map_cons, List.filter, hfa, hpa, List.length_cons]
      exact Nat.succ_le_succ (length_filter_map_le p f h l)
    | false =>
      cases hpa : p a with
      | true =>
        simp only [List.map_cons, List.filter, hfa, hpa, List.length_cons]
        exact Nat.le_succ_of_le (length_filter_map_le p f h l)
      | false =>
        simp only [List.map_cons, List.filter, hfa, hpa]
        exact length_filter_map_le p f h l

/-- A filtered map is empty when no image matches. -/
theorem filter_map_nil_of_all {α : Type} (p : α → Bool) (f : α → α) :
    ∀ l : List α, (∀ a ∈ l, p (f a) = false) → (l.map f).filter p = []
  | [], _ => rfl
  | a :: l, h => by
    have ha := h a (List.mem_cons_self a l)
    simp only [List.map_cons, List.filter, ha]
    exact filter_map_nil_of_all p f l (fun b hb => h b (List.mem_cons_of_mem a hb))

/-- Two members of a list of length at most one are equal. -/
theorem eq_of_mem_len_le_one {α : Type} {l : List α} (h : l.length ≤ 1) {a b : α}
    (ha : a ∈ l) (hb : b ∈ l) : a = b := by
  match l with
  | [] => cases ha
  | [x] =>
    have h1 : a = x := by simpa using ha
    have h2 : b = x := by simpa using hb
    rw [h1, h2]
  | x :: y :: t => simp at h

/-- `find?` looks only at the left part when it already succeeds there. -/
theorem find?_append_of_some {α : Type} (p : α → Bool) {l₁ : List α} {a : α}
    (h : l₁.find? p = some a) (l₂ : List α) : (l₁ ++ l₂).find? p = some a := by
  induction l₁ with
  | nil => cases h
  | cons x t ih =>
    cases hx : p x with
    | true =>
      simp only [List.find?, hx] at h
      simp only [List.cons_append, List.find?, hx]
      exact h
    | false =>
      simp only [List.find?, hx] at h
      simp only [List.cons_append, List.find?, hx]
      exact ih h

/-- The latest-created fold stays inside the candidate list. -/
theorem foldl_newerOf_mem : ∀ (l : List Order) (a : Order),
    l.foldl newerOf a = a ∨ l.foldl newerOf a ∈ l
  | [], _ => Or.inl rfl
  | x :: l, a => by
    rw [List.foldl_cons]
    rcases foldl_newerOf_mem l (newerOf a x) with h | h
    · rw [h]
      unfold newerOf
      split
      · exact Or.inr (List.mem_cons_self x l)
      · exact Or.inl rfl
    · exact Or.inr (List.mem_cons_of_mem x h)

/-- `pickLatest` returns an element of its input. -/
theorem pickLatest_mem {l : List Order} {o : Order} (h : pickLatest l = some o) :
    o ∈ l := by
  match l with
  | [] => cases h
  | x :: t =>
    unfold pickLatest at h
    injection h with h
    rw [← h]
    rcases foldl_newerOf_mem t x with h' | h'
    · rw [h']
      exact List.mem_cons_self x t
    · exact List.mem_cons_of_mem x h'

/-- The pending lookup succeeds exactly on a member of the pending set. -/
theorem findPendingOrder_some_mem {db : DB} {uid : Nat} {d : Order}
    (h : findPendingOrder db uid = some d) : d ∈ pendingOrdersOf db uid :=
  pickLatest_mem h

/-- `pickLatest` fails exactly on the empty list. -/
theorem pickLatest_eq_none_iff (l : List Order) : pickLatest l = none ↔ l = [] := by
  cases l <;> simp [pickLatest]

/-- The pending lookup fails exactly when the user has no pending order. -/
theorem findPendingOrder_none_iff (db : DB) (uid : Nat) :
    findPendingOrder db uid = none ↔ pendingCount db uid = 0 := by
  unfold findPendingOrder pendingCount
  rw [pickLatest_eq_none_iff, List.length_eq_zero]

/-- A row that is pending for `uid` after a non-pending status update was
already pending and was not the updated row. -/
theorem pendingPred_statusUpd_true {uid oid : Nat} {s : Status} {o : Order}
    (hs : s ≠ Status.pending) (h : pendingPred uid (statusUpd oid s o) = true) :
    pendingPred uid o = true ∧ o.id ≠ oid := by
  by_cases ho : o.id = oid
  · exfalso
    have hupd : statusUpd oid s o = { o with status := s } := by
      unfold statusUpd; simp [ho]
    rw [hupd] at h
    unfold pendingPred at h
    rw [Bool.and_eq_true] at h
    have : s = Status.pending := by simpa using h.2
    exact hs this
  · have hupd : statusUpd oid s o = o := by
      unfold statusUpd; simp [ho]
    rw [hupd] at h
    exact ⟨h, ho⟩

/-- The fee/total update never changes pendingness. -/
theorem pendingPred_feeUpd (uid oid : Nat) (fee total : Int) (o : Order) :
    pendingPred uid (feeUpd oid fee total o) = pendingPred uid o := by
  unfold feeUpd pendingPred
  split <;> rfl

/-- A non-pending status update cannot increase a user's pending count. -/
theorem pendingCount_setStatus_le (db : DB) (oid : Nat) (s : Status) (uid : Nat)
    (hs : s ≠ Status.pending) :
    pendingCount (setOrderStatus db oid s) uid ≤ pendingCount db uid := by
  unfold pendingCount pendingOrdersOf setOrderStatus
  exact length_filter_map_le _ _
    (fun a ha => (pendingPred_statusUpd_true hs ha).1) db.orders

/-- The fee/total update leaves every pending count unchanged. -/
theorem pendingCount_setFeeTotal (db : DB) (oid : Nat) (fee total : Int) (uid : Nat) :
    pendingCount (setOrderFeeTotal db oid fee total) uid = pendingCount db uid := by
  unfold pendingCount pendingOrdersOf setOrderFeeTotal
  simp only [List.filter_map, List.length_map]
  congr 1
  apply List.filter_congr
  intro a _
  exact pendingPred_feeUpd uid oid fee total a

/-- Updating the unique pending order of a user to a terminal status leaves
that user with no pending order. -/
theorem pendingCount_kill (db : DB) (uid : Nat) (d : Order) (s : Status)
    (hcnt : pendingCount db uid ≤ 1) (hd : d ∈ pendingOrdersOf db uid)
    (hs : s ≠ Status.pending) :
    pendingCount (setOrderStatus db d.id s) uid = 0 := by
  unfold pendingCount pendingOrdersOf setOrderStatus
  rw [filter_map_nil_of_all]
  · rfl
  · intro a ha
    cases hpa : pendingPred uid (statusUpd d.id s a) with
    | false => rfl
    | true =>
      exfalso
      obtain ⟨hpa2, hne⟩ := pendingPred_statusUpd_true hs hpa
      have hmem : a ∈ pendingOrdersOf db uid := List.mem_filter.mpr ⟨ha, hpa2⟩
      have had : a = d := eq_of_mem_len_le_one hcnt hmem hd
      exact hne (by rw [had])

/-- The fresh flow never spawns a notification. -/
theorem freshFlow_notifs (env : Env) (uid : Nat) (db : DB) :
    (freshFlow env uid db).notifs = [] := by
  unfold freshFlow
  split
  · rfl
  · split <;> rfl

/-- The fresh flow either leaves the store unchanged (off-topic reply or
aborted transaction) or commits exactly one new pending order for the user
together with its item rows. -/
theorem freshFlow_db_cases (env : Env) (uid : Nat) (db : DB) :
    (freshFlow env uid db).db = db ∨
    ∃ items : List OrderItem, (freshFlow env uid db).db =
      ⟨db.orders ++ [⟨db.nextOrderId, uid, Status.pending, 0, 0, env.nowTs⟩],
       db.orderItems ++ items, db.nextOrderId + 1⟩ := by
  unfold freshFlow
  split
  · exact Or.inl rfl
  · split
    · exact Or.inl rfl
    · exact Or.inr ⟨_, rfl⟩

/-- The fresh flow adds at most one pending order for the acting user. -/
theorem pendingCount_freshFlow_le (env : Env) (uid : Nat) (db : DB) :
    pendingCount (freshFlow env uid db).db uid ≤ pendingCount db uid + 1 := by
  rcases freshFlow_db_cases env uid db with h | ⟨items, h⟩
  · rw [h]; omega
  · rw [h]
    unfold pendingCount pendingOrdersOf
    simp only [List.filter_append, List.length_append]
    have hone : (List.filter (pendingPred uid)
        [⟨db.nextOrderId, uid, Status.pending, 0, 0, env.nowTs⟩]).length ≤ 1 := by
      simp [List.filter, pendingPred]
    omega

/-- The fresh flow changes no other user's pending count. -/
theorem pendingCount_freshFlow_other (env : Env) (uid : Nat) (db : DB) (u : Nat)
    (hu : u ≠ uid) :
    pendingCount (freshFlow env uid db).db u = pendingCount db u := by
  rcases freshFlow_db_cases env uid db with h | ⟨items, h⟩
  · rw [h]
  · rw [h]
    unfold pendingCount pendingOrdersOf
    simp only [List.filter_append, List.length_append]
    have hnil : List.filter (pendingPred u)
        [⟨db.nextOrderId, uid, Status.pending, 0, 0, env.nowTs⟩] = [] := by
      have hb : (uid == u) = false := by
        simp only [beq_eq_false_iff_ne, ne_eq]
        exact fun hh => hu hh.symm
      simp [List.filter, pendingPred, hb]
    rw [hnil]
    rfl

/-- The fresh flow never rewrites an existing order row. -/
theorem freshFlow_find_stable (env : Env) (uid : Nat) (db : DB) (oid : Nat)
    (h : (findOrderById db oid).isSome) :
    findOrderById (freshFlow env uid db).db oid = findOrderById db oid := by
  rcases freshFlow_db_cases env uid db with heq | ⟨items, heq⟩
  · rw [heq]
  · rw [heq]
    obtain ⟨a, ha⟩ := Option.isSome_iff_exists.mp h
    unfold findOrderById at ha ⊢
    exact (find?_append_of_some _ ha _).trans ha.symm

/-- Reduction of `handleTurn` when no pending order exists. -/
theorem handleTurn_fresh {db : DB} {uid : Nat} (env : Env) (msg : String)
    (hnp : findPendingOrder db uid = none) :
    handleTurn env uid msg db = freshFlow env uid db := by
  unfold handleTurn
  rw [hnp]

/-- Reduction of `handleTurn` when a pending order exists. -/
theorem handleTurn_some {db : DB} {uid : Nat} {d : Order} (env : Env) (msg : String)
    (hd : findPendingOrder db uid = some d) :
    handleTurn env uid msg db =
      (if strContainsSub (normalizeMsg msg) "confirm" then confirmBranch env uid db d
       else if strContainsSub (normalizeMsg msg) "cancel"
           || strContainsSub (normalizeMsg msg) "cancelled" then cancelBranch uid db d
       else freshFlow env uid (setOrderStatus db d.id Status.cancelled)) := by
  unfold handleTurn
  rw [hd]

/-- The durable effect of the confirm branch is a fee/total update on top of
the status flip. -/
theorem confirmBranch_db_eq (env : Env) (uid : Nat) (db : DB) (d : Order) :
    ∃ fee total : Int, (confirmBranch env uid db d).db
      = setOrderFeeTotal (setOrderStatus db d.id Status.confirmed) d.id fee total := by
  refine ⟨calculateTransportFee
      ((countConfirmedSince (setOrderStatus db d.id Status.confirmed) uid env.today + 1 : Nat) : Int),
    itemsSubtotal (setOrderStatus db d.id Status.confirmed) d.id +
      calculateTransportFee
        ((countConfirmedSince (setOrderStatus db d.id Status.confirmed) uid env.today + 1 : Nat) : Int),
    rfl⟩

/-- `feeUpd` never changes the status column. -/
theorem feeUpd_status (oid : Nat) (fee total : Int) (o : Order) :
    (feeUpd oid fee total o).status = o.status := by
  unfold feeUpd; split <;> rfl

/-- `findOrderById` after a fee/total update finds the updated row. -/
theorem findOrderById_setFeeTotal (db : DB) (oid : Nat) (fee total : Int) :
    findOrderById (setOrderFeeTotal db oid fee total) oid
      = (findOrderById db oid).map (feeUpd oid fee total) :=
  find?_map_id_keep _ (feeUpd_id oid fee total) oid db.orders

/-- An order of the store is found by its own id. -/
theorem findOrderById_isSome_of_mem {db : DB} {d : Order} (hdm : d ∈ db.orders) :
    (findOrderById db d.id).isSome := by
  unfold findOrderById
  rw [List.find?_isSome]
  exact ⟨d, hdm, by simp⟩

/-! ## C1: at most one pending order per user -/

/-- One turn preserves the at-most-one-pending-per-user invariant. -/
theorem handleTurn_pending_invariant (env : Env) (uid : Nat) (msg : String) (db : DB)
    (h : ∀ u, pendingCount db u ≤ 1) :
    ∀ u, pendingCount (handleTurn env uid msg db).db u ≤ 1 := by
  intro u
  cases hfp : findPendingOrder db uid with
  | none =>
    rw [handleTurn_fresh env msg hfp]
    by_cases hu : u = uid
    · subst hu
      have h0 : pendingCount db u = 0 := (findPendingOrder_none_iff db u).mp hfp
      have hle := pendingCount_freshFlow_le env u db
      omega
    · rw [pendingCount_freshFlow_other env uid db u hu]
      exact h u
  | some d =>
    have hd := findPendingOrder_some_mem hfp
    rw [handleTurn_some env msg hfp]
    split_ifs with hc hk
    · obtain ⟨fee, total, heq⟩ := confirmBranch_db_eq env uid db d
      rw [heq, pendingCount_setFeeTotal]
      exact le_trans
        (pendingCount_setStatus_le db d.id Status.confirmed u (by decide)) (h u)
    · show pendingCount (setOrderStatus db d.id Status.cancelled) u ≤ 1
      exact le_trans
        (pendingCount_setStatus_le db d.id Status.cancelled u (by decide)) (h u)
    · by_cases hu : u = uid
      · subst hu
        have h0 := pendingCount_kill db u d Status.cancelled (h u) hd (by decide)
        have hle := pendingCount_freshFlow_le env u (setOrderStatus db d.id Status.cancelled)
        omega
      · rw [pendingCount_freshFlow_other env uid _ u hu]
        exact le_trans
          (pendingCount_setStatus_le db d.id Status.cancelled u (by decide)) (h u)

/-- C1: starting from any store where every user owns at most one pending
order (in particular the empty store), every sequence of handled chat turns
keeps every user at at most one pending order — each turn either finds no
pending order before inserting a new one or resolves the pending order it
finds.  Applying the theorem to every suffix of a conversation yields the
invariant at every observation point between turns. -/
theorem c1_at_most_one_pending (ts : List (Env × Nat × String)) (db : DB)
    (h : ∀ u, pendingCount db u ≤ 1) (u : Nat) :
    pendingCount (runTurns ts db) u ≤ 1 := by
  induction ts generalizing db with
  | nil => exact h u
  | cons t ts ih =>
    obtain ⟨e, u', m⟩ := t
    exact ih (handleTurn e u' m db).db (handleTurn_pending_invariant e u' m db h)

/-- Witness for C1: one off-topic turn from the empty store. -/
theorem c1_at_most_one_pending_witness :
    pendingCount (runTurns [(envOffTopic, 1, "hi")] dbEmpty) 1 ≤ 1 :=
  c1_at_most_one_pending [(envOffTopic, 1, "hi")] dbEmpty (fun _ => Nat.zero_le 1) 1

/-! ## C5: off-topic or unparseable extraction -/

/-- C5: when the (fence-stripped) extraction output fails to decode or
decodes to the empty array, a turn with no pending draft replies with the
fixed off-topic message, spawns no notification and leaves the store
untouched. -/
theorem c5_off_topic_short_circuit (env : Env) (uid : Nat) (msg : String) (db : DB)
    (hparse : jsonParseProducts (stripFences env.phase1Raw.toList) = none
      ∨ jsonParseProducts (stripFences env.phase1Raw.toList) = some [])
    (hnp : findPendingOrder db uid = none) :
    handleTurn env uid msg db = ⟨offTopicReply, [], db⟩ := by
  have hempty : parsePipeline env.phase1Raw = [] := by
    unfold parsePipeline parsePipelineL
    rcases hparse with h | h <;> rw [h] <;> rfl
  rw [handleTurn_fresh env msg hnp]
  unfold freshFlow
  rw [hempty]
  rfl

/-- Witness for C5 with an undecodable extraction output. -/
theorem c5_off_topic_short_circuit_witness :
    handleTurn envGibberish 1 "What is biology?" dbEmpty
      = ⟨offTopicReply, [], dbEmpty⟩ :=
  c5_off_topic_short_circuit envGibberish 1 "What is biology?" dbEmpty
    (Or.inl (by decide)) (by decide)

/-! ## C4: an unavailable product aborts the whole turn -/

/-- The PHASE-2 loop aborts with the first failing name, regardless of the
accumulators and of the lines after the failing one. -/
theorem processItems_error (env : Env) (oid : Nat) (p : parsedProduct)
    (hbad : lineFails env p = true) :
    ∀ (pre rest : List parsedProduct) (acc : List OrderItem)
      (cis : List confirmedItem) (st : Int),
      (∀ q ∈ pre, lineFails env q = false) →
      processItems env oid (pre ++ p :: rest) acc cis st = Except.error p.name
  | [], rest, acc, cis, st, _ => by
    rw [List.nil_append]
    unfold lineFails at hbad
    cases hcat : env.catalog p.name with
    | nil =>
      unfold processItems
      rw [hcat]
    | cons row t =>
      rw [hcat] at hbad
      have hav : row.available = false := by simpa using hbad
      unfold processItems
      rw [hcat]
      simp [hav]
  | q :: pre, rest, acc, cis, st, hok => by
    have hq : lineFails env q = false := hok q (List.mem_cons_self q pre)
    unfold lineFails at hq
    cases hcat : env.catalog q.name with
    | nil => rw [hcat] at hq; cases hq
    | cons row t =>
      rw [hcat] at hq
      have hav : row.available = true := by simpa using hq
      rw [List.cons_append]
      unfold processItems
      rw [hcat]
      simp only [hav, if_true]
      exact processItems_error env oid p hbad pre rest _ _ _
        (fun r hr => hok r (List.mem_cons_of_mem q hr))

/-- C4: when the extraction yields a first failing line `p` (its catalog
lookup has no hit or an unavailable top hit) after lines that all validate,
the whole turn aborts: the reply is exactly the not-available message for
`p`'s name, no notification is spawned, the store is unchanged (rollback),
the lines after `p` are never consulted (the conclusion does not depend on
`rest`), and a subsequent pending-order lookup still finds nothing. -/
theorem c4_unavailable_aborts (env : Env) (uid : Nat) (msg : String) (db : DB)
    (pre : List parsedProduct) (p : parsedProduct) (rest : List parsedProduct)
    (hnp : findPendingOrder db uid = none)
    (hparse : parsePipeline env.phase1Raw = pre ++ p :: rest)
    (hok : ∀ q ∈ pre, lineFails env q = false)
    (hbad : lineFails env p = true) :
    handleTurn env uid msg db = ⟨notAvailableReply p.name, [], db⟩
    ∧ findPendingOrder (handleTurn env uid msg db).db uid = none := by
  have hmain : handleTurn env uid msg db = ⟨notAvailableReply p.name, [], db⟩ := by
    rw [handleTurn_fresh env msg hnp]
    unfold freshFlow
    rw [hparse]
    have hne : ((pre ++ p :: rest).isEmpty) = false := by
      cases pre <;> rfl
    simp only [hne, Bool.false_eq_true, if_false]
    rw [processItems_error env db.nextOrderId p hbad pre rest [] [] 0 hok]
  constructor
  · exact hmain
  · rw [hmain]
    exact hnp

/-- Witness for C4: "milk" validates, "soap" has no catalog hit, the turn
aborts with the soap message and the empty store is unchanged. -/
theorem c4_unavailable_aborts_witness :
    handleTurn envSoapMissing 1 "order milk and soap" dbEmpty
      = ⟨notAvailableReply "soap", [], dbEmpty⟩ :=
  (c4_unavailable_aborts envSoapMissing 1 "order milk and soap" dbEmpty
    [⟨"milk", 1⟩] ⟨"soap", 2⟩ [] (by decide) (by decide) (by decide) (by decide)).1

/-! ## C7: a stale draft is silently cancelled -/

/-- C7: with a pending draft and a message containing neither "confirm" nor
"cancel"/"cancelled", the draft is set to `'CANCELLED'`, no notification is
spawned, the turn proceeds exactly as a fresh ordering request on the
updated store, and the draft row ends the turn cancelled. -/
theorem c7_stale_draft_silently_cancelled (env : Env) (uid : Nat) (msg : String)
    (db : DB) (d : Order)
    (hd : findPendingOrder db uid = some d)
    (h1 : strContainsSub (normalizeMsg msg) "confirm" = false)
    (h2 : strContainsSub (normalizeMsg msg) "cancel" = false)
    (h3 : strContainsSub (normalizeMsg msg) "cancelled" = false) :
    handleTurn env uid msg db = freshFlow env uid (setOrderStatus db d.id Status.cancelled)
    ∧ (handleTurn env uid msg db).notifs = []
    ∧ (findOrderById (handleTurn env uid msg db).db d.id).map Order.status
        = some Status.cancelled := by
  have hmain : handleTurn env uid msg db
      = freshFlow env uid (setOrderStatus db d.id Status.cancelled) := by
    rw [handleTurn_some env msg hd]
    simp [h1, h2, h3]
  have hdm : d ∈ db.orders := (List.mem_filter.mp (findPendingOrder_some_mem hd)).1
  have hsome0 : (findOrderById db d.id).isSome := findOrderById_isSome_of_mem hdm
  obtain ⟨a, ha⟩ := Option.isSome_iff_exists.mp hsome0
  have hida : (a.id == d.id) = true := by
    have hfo : db.orders.find? (fun o => o.id == d.id) = some a := ha
    simpa using List.find?_some hfo
  have hsome1 : (findOrderById (setOrderStatus db d.id Status.cancelled) d.id).isSome := by
    rw [findOrderById_setStatus, ha]
    rfl
  refine ⟨hmain, by rw [hmain, freshFlow_notifs], ?_⟩
  rw [hmain, freshFlow_find_stable env uid _ d.id hsome1, findOrderById_setStatus, ha]
  have hstat : (statusUpd d.id Status.cancelled a).status = Status.cancelled := by
    unfold statusUpd; simp [hida]
  simp [hstat]

/-- Witness for C7: a greeting cancels the stale draft with no
notification. -/
theorem c7_stale_draft_silently_cancelled_witness :
    handleTurn envOffTopic 1 "hello" dbOnePending
      = freshFlow envOffTopic 1 (setOrderStatus dbOnePending 1 Status.cancelled)
    ∧ (handleTurn envOffTopic 1 "hello" dbOnePending).notifs = []
    ∧ (findOrderById (handleTurn envOffTopic 1 "hello" dbOnePending).db 1).map Order.status
        = some Status.cancelled :=
  c7_stale_draft_silently_cancelled envOffTopic 1 "hello" dbOnePending
    ⟨1, 1, Status.pending, 0, 0, 50⟩ (by decide) (by decide) (by decide) (by decide)

/-! ## C8: confirming is idempotent at the order level -/

/-- C8: once a confirm turn has transitioned the user's unique pending draft
to `'CONFIRMED'`, a second turn whose message again contains "confirm"
spawns no notification and leaves the confirmed order row exactly as it
was: no pending draft remains, so the second turn runs the fresh flow,
which never rewrites an existing order. -/
theorem c8_confirm_idempotent (env1 env2 : Env) (uid : Nat) (msg1 msg2 : String)
    (db : DB) (d : Order)
    (hd : findPendingOrder db uid = some d)
    (hcnt : pendingCount db uid ≤ 1)
    (hc1 : strContainsSub (normalizeMsg msg1) "confirm" = true)
    (_hc2 : strContainsSub (normalizeMsg msg2) "confirm" = true) :
    (findOrderById (handleTurn env1 uid msg1 db).db d.id).map Order.status
        = some Status.confirmed
    ∧ (handleTurn env2 uid msg2 (handleTurn env1 uid msg1 db).db).notifs = []
    ∧ findOrderById (handleTurn env2 uid msg2 (handleTurn env1 uid msg1 db).db).db d.id
        = findOrderById (handleTurn env1 uid msg1 db).db d.id := by
  have hmain : handleTurn env1 uid msg1 db = confirmBranch env1 uid db d := by
    rw [handleTurn_some env1 msg1 hd]
    simp [hc1]
  obtain ⟨fee, total, hdb1⟩ := confirmBranch_db_eq env1 uid db d
  have hdp := findPendingOrder_some_mem hd
  have hdm : d ∈ db.orders := (List.mem_filter.mp hdp).1
  have hsome0 : (findOrderById db d.id).isSome := findOrderById_isSome_of_mem hdm
  obtain ⟨a, ha⟩ := Option.isSome_iff_exists.mp hsome0
  have hida : (a.id == d.id) = true := by
    have hfo : db.orders.find? (fun o => o.id == d.id) = some a := ha
    simpa using List.find?_some hfo
  have hfind1 : findOrderById (handleTurn env1 uid msg1 db).db d.id
      = some (feeUpd d.id fee total (statusUpd d.id Status.confirmed a)) := by
    rw [hmain, hdb1, findOrderById_setFeeTotal, findOrderById_setStatus, ha]
    rfl
  have hstat1 : (findOrderById (handleTurn env1 uid msg1 db).db d.id).map Order.status
      = some Status.confirmed := by
    rw [hfind1]
    have hs1 : (statusUpd d.id Status.confirmed a).status = Status.confirmed := by
      unfold statusUpd; simp [hida]
    simp [feeUpd_status, hs1]
  have h0 : pendingCount (handleTurn env1 uid msg1 db).db uid = 0 := by
    rw [hmain, hdb1, pendingCount_setFeeTotal]
    exact pendingCount_kill db uid d Status.confirmed hcnt hdp (by decide)
  have hnp1 : findPendingOrder (handleTurn env1 uid msg1 db).db uid = none :=
    (findPendingOrder_none_iff _ _).mpr h0
  have hturn2 : handleTurn env2 uid msg2 (handleTurn env1 uid msg1 db).db
      = freshFlow env2 uid (handleTurn env1 uid msg1 db).db :=
    handleTurn_fresh env2 msg2 hnp1
  refine ⟨hstat1, by rw [hturn2, freshFlow_notifs], ?_⟩
  rw [hturn2]
  apply freshFlow_find_stable
  rw [hfind1]
  rfl

/-- Witness for C8: after confirming the single pending draft, a second
"confirm" changes nothing and notifies nobody. -/
theorem c8_confirm_idempotent_witness :
    (findOrderById (handleTurn envOffTopic 1 "confirm" dbOnePending).db 1).map Order.status
        = some Status.confirmed
    ∧ (handleTurn envGibberish 1 "confirm"
        (handleTurn envOffTopic 1 "confirm" dbOnePending).db).notifs = []
    ∧ findOrderById (handleTurn envGibberish 1 "confirm"
          (handleTurn envOffTopic 1 "confirm" dbOnePending).db).db 1
        = findOrderById (handleTurn envOffTopic 1 "confirm" dbOnePending).db 1 :=
  c8_confirm_idempotent envOffTopic envGibberish 1 "confirm" "confirm" dbOnePending
    ⟨1, 1, Status.pending, 0, 0, 50⟩ (by decide) (by decide) (by decide) (by decide)

/-! ## C2: the recomputed transport fee double-counts the new order -/

/-- C2 (bug evaluation): user 1 confirms a draft created today while already
owning two orders confirmed today.  After the turn the claim's count `n`
(the user's confirmed orders created since day start, including the new
one) is 3 and `calculateTransportFee 3 = 1000`, yet the handler persists a
transport fee of 2000 and a total of 12000 (= 2*5000 + 2000): the count
query runs after the draft was already flipped to `'CONFIRMED'`, and the
subsequent `+ 1` counts the new order a second time. -/
theorem c2_confirm_fee_double_count :
    (findOrderById (handleTurn envFee 1 "confirm" dbFee).db 3).map Order.status
        = some Status.confirmed
    ∧ countConfirmedSince (handleTurn envFee 1 "confirm" dbFee).db 1 100 = 3
    ∧ calculateTransportFee 3 = 1000
    ∧ (findOrderById (handleTurn envFee 1 "confirm" dbFee).db 3).map Order.transportFee
        = some 2000
    ∧ (findOrderById (handleTurn envFee 1 "confirm" dbFee).db 3).map Order.totalCost
        = some 12000
    ∧ (handleTurn envFee 1 "confirm" dbFee).notifs
        = [Notification.orderConfirmed 3 1 2000 12000] := by decide

end Jaj
